import Mathlib

/-!
Shallow embedding of the openai-nim-proxy server (src/server.js) and proofs
about its specification claims.  The embedding covers the streaming response
reshaper (the SSE data handler installed on the backend response stream), the
request mapper defaults, and the lorebook matcher
(findRelevantLoreEntries), together with models of the JavaScript platform
primitives the handler calls: JSON.parse / JSON.stringify, string plus
coercion, truthiness, and Buffer.toString with UTF-8 replacement decoding.
-/

set_option maxRecDepth 4000

namespace NimProxy

/-- JSON values as produced by JSON.parse.  Numbers are modelled as rationals;
none of the verified properties depends on floating-point rounding (every
payload field they touch is a string). -/
inductive JVal where
  | str (s : String)
  | num (q : ℚ)
  | bool (b : Bool)
  | null
  | arr (xs : List JVal)
  | obj (fields : List (String × JVal))

/-- Whether a value is the JSON null (the only parse result on which the
handler's unguarded property reads throw). -/
def isNull : JVal → Bool
  | .null => true
  | _ => false

/-- JavaScript truthiness of a defined value (0, empty string, false and null
are falsy; objects and arrays are always truthy). -/
def jsTruthy : JVal → Bool
  | .null => false
  | .bool b => b
  | .num q => decide (q ≠ 0)
  | .str s => decide (s ≠ "")
  | .arr _ => true
  | .obj _ => true

/-- Truthiness of a possibly-undefined value (undefined is modelled as none
and is falsy). -/
def truthyO : Option JVal → Bool
  | none => false
  | some v => jsTruthy v

/-- Lookup of a property in an object's field list (JSON.parse collapses
duplicate keys, so field lists have unique keys and first match suffices). -/
def objGet : List (String × JVal) → String → Option JVal
  | [], _ => none
  | (k, v) :: fs, key => if k = key then some v else objGet fs key

/-- Property assignment on a field list: overwrite in place when the key
exists (JS keeps the original insertion position), append otherwise. -/
def objSet : List (String × JVal) → String → JVal → List (String × JVal)
  | [], k, v => [(k, v)]
  | (k', v') :: fs, k, v =>
    if k' = k then (k', v) :: fs else (k', v') :: objSet fs k v

/-- The delete operator on a field list: remove the property. -/
def objDel : List (String × JVal) → String → List (String × JVal)
  | [], _ => []
  | (k', v') :: fs, k => if k' = k then fs else (k', v') :: objDel fs k

/-- JS property read v.k.  On non-objects it yields undefined (none); the
handler only reads the delta fields this way, so exotic string/array
properties such as length are not needed. -/
def jget : JVal → String → Option JVal
  | .obj fs, k => objGet fs k
  | _, _ => none

/-- JS indexed read v[i]: array element, object property with the numeral
key, or a one-character string for string receivers. -/
def jsIndex : JVal → Nat → Option JVal
  | .arr xs, i => xs.get? i
  | .obj fs, i => objGet fs (toString i)
  | .str s, i => (s.toList.get? i).map (fun c => .str (String.mk [c]))
  | _, _ => none

/-- JS property assignment v.k = x in sloppy mode: updates objects, and is a
silent no-op on primitives; a non-index property added to an array is ignored
by JSON.stringify, so modelling it as a no-op is output-faithful. -/
def jSetField : JVal → String → JVal → JVal
  | .obj fs, k, v => .obj (objSet fs k v)
  | w, _, _ => w

/-- JS delete v.k in sloppy mode, no-op on non-objects (same rationale as
jSetField). -/
def jDelField : JVal → String → JVal
  | .obj fs, k => .obj (objDel fs k)
  | w, _ => w

/-- Decimal string of an integer, matching JS number formatting for integral
values. -/
def intStr (n : ℤ) : String := toString n

/-- JS string form of a number.  Integral rationals render exactly as JS
renders them; the non-integral fallback is an approximation that no verified
property exercises (their payload fields are strings). -/
def ratStr (q : ℚ) : String :=
  if q.den = 1 then intStr q.num else intStr q.num ++ "/" ++ intStr (q.den : ℤ)

mutual

/-- JS ToString coercion, as applied by string concatenation. -/
def jsStr : JVal → String
  | .str s => s
  | .num q => ratStr q
  | .bool true => "true"
  | .bool false => "false"
  | .null => "null"
  | .arr xs => jsStrJoin xs
  | .obj _ => "[object Object]"

/-- Array.prototype.toString: elements joined by commas, null rendered
empty. -/
def jsStrJoin : List JVal → String
  | [] => ""
  | [x] => if isNull x then "" else jsStr x
  | x :: xs => (if isNull x then "" else jsStr x) ++ "," ++ jsStrJoin xs

end

/-- Whether the JS ToPrimitive of a value is a string (strings themselves,
and arrays/objects, whose primitive form is their string form). -/
def isStringy : JVal → Bool
  | .str _ => true
  | .arr _ => true
  | .obj _ => true
  | _ => false

/-- Numeric coercion for the non-string operands the plus operator can see
here. -/
def jsNumOf : JVal → ℚ
  | .num q => q
  | .bool true => 1
  | .bool false => 0
  | _ => 0

/-- The JS binary plus: string concatenation when either primitive operand
is a string, numeric addition otherwise. -/
def jsPlus (a b : JVal) : JVal :=
  if isStringy a || isStringy b then .str (jsStr a ++ jsStr b)
  else .num (jsNumOf a + jsNumOf b)

/-! ## JSON.stringify -/

/-- The opening curly bracket character. -/
def lbrace : Char := Char.ofNat 123

/-- The closing curly bracket character. -/
def rbrace : Char := Char.ofNat 125

/-- Lower-case hexadecimal digit. -/
def hexDigit (n : Nat) : Char :=
  if n < 10 then Char.ofNat (48 + n) else Char.ofNat (87 + n % 16)

/-- Four lower-case hex digits, as in the escape sequences JSON.stringify
emits for control characters. -/
def hex4 (n : Nat) : String :=
  String.mk [hexDigit (n / 4096 % 16), hexDigit (n / 256 % 16),
             hexDigit (n / 16 % 16), hexDigit (n % 16)]

/-- JSON.stringify escaping for one character of a string value. -/
def escChar (c : Char) : String :=
  if c = '"' then "\\\""
  else if c = '\\' then "\\\\"
  else if c = '\n' then "\\n"
  else if c = '\r' then "\\r"
  else if c = '\t' then "\\t"
  else if c = Char.ofNat 8 then "\\b"
  else if c = Char.ofNat 12 then "\\f"
  else if c.toNat < 32 then "\\u" ++ hex4 c.toNat
  else String.mk [c]

/-- JSON.stringify escaping for the body of a string value. -/
def escStr : List Char → String
  | [] => ""
  | c :: cs => escChar c ++ escStr cs

mutual

/-- JSON.stringify (no spacing arguments, as the handler calls it). -/
def stringify : JVal → String
  | .str s => "\"" ++ escStr s.toList ++ "\""
  | .num q => ratStr q
  | .bool true => "true"
  | .bool false => "false"
  | .null => "null"
  | .arr xs => "[" ++ stringifyItems xs ++ "]"
  | .obj fs => String.mk [lbrace] ++ stringifyFields fs ++ String.mk [rbrace]

/-- Array elements of a stringified array, comma separated. -/
def stringifyItems : List JVal → String
  | [] => ""
  | [x] => stringify x
  | x :: xs => stringify x ++ "," ++ stringifyItems xs

/-- key:value members of a stringified object, comma separated, in property
insertion order. -/
def stringifyFields : List (String × JVal) → String
  | [] => ""
  | [(k, v)] => "\"" ++ escStr k.toList ++ "\":" ++ stringify v
  | (k, v) :: fs =>
    "\"" ++ escStr k.toList ++ "\":" ++ stringify v ++ "," ++ stringifyFields fs

end

/-! ## JSON.parse

A strict JSON parser over character lists, faithful to JSON.parse: the four
JSON whitespace characters, strict number grammar, the nine string escapes
with surrogate-pair combination, rejection of raw control characters in
strings, rejection of trailing garbage, and last-wins duplicate object keys.
Recursion is by explicit fuel (one unit per consumed character is ample). -/

/-- The four JSON whitespace characters. -/
def jsonWs (c : Char) : Bool :=
  c = ' ' || c = '\t' || c = '\n' || c = '\r'

/-- Skip JSON whitespace. -/
def skipWs : List Char → List Char
  | [] => []
  | c :: cs => if jsonWs c then skipWs cs else c :: cs

/-- Value of one hex digit, if any. -/
def hexVal (c : Char) : Option Nat :=
  if '0' ≤ c ∧ c ≤ '9' then some (c.toNat - 48)
  else if 'a' ≤ c ∧ c ≤ 'f' then some (c.toNat - 87)
  else if 'A' ≤ c ∧ c ≤ 'F' then some (c.toNat - 55)
  else none

/-- Four hex digits of a unicode escape. -/
def parse4Hex : List Char → Option (Nat × List Char)
  | a :: b :: c :: d :: rest =>
    match hexVal a, hexVal b, hexVal c, hexVal d with
    | some x, some y, some z, some w => some (((x * 16 + y) * 16 + z) * 16 + w, rest)
    | _, _, _, _ => none
  | _ => none

/-- The unicode replacement character. -/
def repl : Char := Char.ofNat 0xFFFD

/-- Body of a JSON string after the opening quote.  JS strings are UTF-16, so
a valid escaped surrogate pair yields the combined code point; an unpaired
surrogate escape is mapped to the replacement character (a deviation from the
lone surrogates JS keeps, not exercised by any property below). -/
def parseStrChars : Nat → List Char → Option (List Char × List Char)
  | 0, _ => none
  | _, [] => none
  | fuel + 1, c :: rest =>
    if c = '"' then some ([], rest)
    else if c = '\\' then
      match rest with
      | [] => none
      | e :: rest2 =>
        if e = '"' ∨ e = '\\' ∨ e = '/' then
          (parseStrChars fuel rest2).map (fun (s, r) => (e :: s, r))
        else if e = 'n' then (parseStrChars fuel rest2).map (fun (s, r) => ('\n' :: s, r))
        else if e = 't' then (parseStrChars fuel rest2).map (fun (s, r) => ('\t' :: s, r))
        else if e = 'r' then (parseStrChars fuel rest2).map (fun (s, r) => ('\r' :: s, r))
        else if e = 'b' then
          (parseStrChars fuel rest2).map (fun (s, r) => (Char.ofNat 8 :: s, r))
        else if e = 'f' then
          (parseStrChars fuel rest2).map (fun (s, r) => (Char.ofNat 12 :: s, r))
        else if e = 'u' then
          match parse4Hex rest2 with
          | none => none
          | some (n, rest3) =>
            if 0xD800 ≤ n ∧ n ≤ 0xDBFF then
              match rest3 with
              | '\\' :: 'u' :: rest4 =>
                match parse4Hex rest4 with
                | some (m, rest5) =>
                  if 0xDC00 ≤ m ∧ m ≤ 0xDFFF then
                    (parseStrChars fuel rest5).map
                      (fun (s, r) =>
                        (Char.ofNat (0x10000 + (n - 0xD800) * 1024 + (m - 0xDC00)) :: s, r))
                  else (parseStrChars fuel rest3).map (fun (s, r) => (repl :: s, r))
                | none => (parseStrChars fuel rest3).map (fun (s, r) => (repl :: s, r))
              | _ => (parseStrChars fuel rest3).map (fun (s, r) => (repl :: s, r))
            else if 0xDC00 ≤ n ∧ n ≤ 0xDFFF then
              (parseStrChars fuel rest3).map (fun (s, r) => (repl :: s, r))
            else (parseStrChars fuel rest3).map (fun (s, r) => (Char.ofNat n :: s, r))
        else none
    else if c.toNat < 32 then none
    else (parseStrChars fuel rest).map (fun (s, r) => (c :: s, r))

/-- A JSON string literal, starting after the opening quote. -/
def parseStrLit (cs : List Char) : Option (String × List Char) :=
  (parseStrChars (cs.length + 1) cs).map (fun (s, r) => (String.mk s, r))

/-- Run of decimal digits. -/
def digitsRun (cs : List Char) : List Char × List Char :=
  (cs.takeWhile Char.isDigit, cs.dropWhile Char.isDigit)

/-- Natural value of a digit run. -/
def natOfDigits (ds : List Char) : Nat :=
  ds.foldl (fun n c => n * 10 + (c.toNat - 48)) 0

/-- The exponent of a JSON number, after the e marker. -/
def parseExp (m : ℚ) (cs : List Char) : Option (ℚ × List Char) :=
  let (eneg, cs1) := match cs with
    | '-' :: rest => (true, rest)
    | '+' :: rest => (false, rest)
    | _ => (false, cs)
  let (ds, cs2) := digitsRun cs1
  if ds.isEmpty then none
  else some (if eneg then m / (10 : ℚ) ^ natOfDigits ds
             else m * (10 : ℚ) ^ natOfDigits ds, cs2)

/-- Exponent part and assembly of a parsed number. -/
def parseNumTail (neg : Bool) (intDs fracDs : List Char) (cs : List Char) :
    Option (ℚ × List Char) :=
  let mantissa : ℚ :=
    (natOfDigits intDs : ℚ) + (natOfDigits fracDs : ℚ) / (10 : ℚ) ^ fracDs.length
  let signed : ℚ := if neg then -mantissa else mantissa
  match cs with
  | 'e' :: rest => parseExp signed rest
  | 'E' :: rest => parseExp signed rest
  | _ => some (signed, cs)

/-- A JSON number per the strict grammar: optional minus, integer part with
no leading zeros, optional fraction, optional exponent. -/
def parseNum (cs : List Char) : Option (ℚ × List Char) :=
  let (neg, cs1) := match cs with
    | '-' :: rest => (true, rest)
    | _ => (false, cs)
  match cs1 with
  | [] => none
  | c :: rest =>
    if ¬ c.isDigit then none
    else
      let (intDs, cs2) :=
        if c = '0' then ([c], rest)
        else digitsRun (c :: rest)
      match cs2 with
      | '.' :: r =>
        let (ds, r2) := digitsRun r
        if ds.isEmpty then none else parseNumTail neg intDs ds r2
      | _ => parseNumTail neg intDs [] cs2

mutual

/-- One JSON value (leading whitespace allowed), returning the remainder. -/
def parseVal : Nat → List Char → Option (JVal × List Char)
  | 0, _ => none
  | fuel + 1, cs =>
    match skipWs cs with
    | [] => none
    | c :: rest =>
      if c = lbrace then
        match skipWs rest with
        | c2 :: rest2 =>
          if c2 = rbrace then some (.obj [], rest2)
          else (parseMembers fuel rest []).map (fun (fs, r) => (JVal.obj fs, r))
        | [] => none
      else if c = '[' then
        match skipWs rest with
        | ']' :: rest2 => some (.arr [], rest2)
        | _ => (parseItems fuel rest []).map (fun (xs, r) => (JVal.arr xs, r))
      else if c = '"' then
        (parseStrLit rest).map (fun (s, r) => (JVal.str s, r))
      else if c = 't' then
        match rest with
        | 'r' :: 'u' :: 'e' :: r => some (.bool true, r)
        | _ => none
      else if c = 'f' then
        match rest with
        | 'a' :: 'l' :: 's' :: 'e' :: r => some (.bool false, r)
        | _ => none
      else if c = 'n' then
        match rest with
        | 'u' :: 'l' :: 'l' :: r => some (.null, r)
        | _ => none
      else if c = '-' ∨ c.isDigit then
        (parseNum (c :: rest)).map (fun (q, r) => (JVal.num q, r))
      else none

/-- Members of an object, starting after the opening bracket or a comma.
Duplicate keys overwrite in place, as JSON.parse does. -/
def parseMembers : Nat → List Char → List (String × JVal) →
    Option (List (String × JVal) × List Char)
  | 0, _, _ => none
  | fuel + 1, cs, acc =>
    match skipWs cs with
    | '"' :: rest =>
      match parseStrLit rest with
      | none => none
      | some (k, rest2) =>
        match skipWs rest2 with
        | ':' :: rest3 =>
          match parseVal fuel rest3 with
          | none => none
          | some (v, rest4) =>
            match skipWs rest4 with
            | ',' :: rest5 => parseMembers fuel rest5 (objSet acc k v)
            | c :: rest5 =>
              if c = rbrace then some (objSet acc k v, rest5) else none
            | [] => none
        | _ => none
    | _ => none

/-- Elements of an array, starting after the opening bracket or a comma. -/
def parseItems : Nat → List Char → List JVal → Option (List JVal × List Char)
  | 0, _, _ => none
  | fuel + 1, cs, acc =>
    match parseVal fuel cs with
    | none => none
    | some (v, rest) =>
      match skipWs rest with
      | ',' :: rest2 => parseItems fuel rest2 (acc ++ [v])
      | ']' :: rest2 => some (acc ++ [v], rest2)
      | _ => none

end

/-- JSON.parse on a character list: one value, then only trailing whitespace;
none models the thrown SyntaxError. -/
def jsonParse (cs : List Char) : Option JVal :=
  match parseVal (cs.length + 1) cs with
  | some (v, rest) => if (skipWs rest).isEmpty then some v else none
  | none => none

/-! ## The stream reshaper (response.data data handler, server.js lines 290 to 347)

The handler keeps two variables across chunks, buffer and reasoningStarted,
appends each chunk (decoded by Buffer.toString), splits on the newline
character keeping the final fragment as the new buffer, and processes each
complete line. -/

/-- line.startsWith of the source, on our string model. -/
def strStartsWith (s p : String) : Bool := p.toList.isPrefixOf s.toList

/-- line.includes of the source: substring containment. -/
def strIncludes (pat : List Char) : List Char → Bool
  | [] => pat.isEmpty
  | c :: rest => pat.isPrefixOf (c :: rest) || strIncludes pat rest

/-- The SHOW_REASONING merge of one delta (server.js lines 311 to 331): the
two staged if chains building combinedContent and updating reasoningStarted.
Returns the final combinedContent value and the new flag. -/
def deltaMergeOn (rs : Bool) (reasoning content : Option JVal) : JVal × Bool :=
  let s1 : JVal × Bool :=
    if truthyO reasoning && !rs then
      (.str ("<think>\n" ++ jsStr (reasoning.getD .null)), true)
    else if truthyO reasoning then (reasoning.getD .null, rs)
    else (.str "", rs)
  if truthyO content && s1.2 then
    (jsPlus s1.1 (.str ("</think>\n\n" ++ jsStr (content.getD .null))), false)
  else if truthyO content then (jsPlus s1.1 (content.getD .null), s1.2)
  else s1

/-- The per-delta transformation of the handler: the SHOW_REASONING branch
assigns the merged content and deletes the reasoning field only when the
combined text is truthy; the default branch always assigns content (the
incoming value when truthy, else the empty string) and always deletes the
reasoning field. -/
def transformDelta (sr rs : Bool) (delta : JVal) : Bool × JVal :=
  let reasoning := jget delta "reasoning_content"
  let content := jget delta "content"
  if sr then
    let m := deltaMergeOn rs reasoning content
    if jsTruthy m.1 then
      (m.2, jDelField (jSetField delta "content" m.1) "reasoning_content")
    else (m.2, delta)
  else
    (rs, jDelField
      (jSetField delta "content"
        (if truthyO content then content.getD .null else .str ""))
      "reasoning_content")

/-- Modify the value of an existing property in a field list. -/
def objModify : List (String × JVal) → String → (JVal → JVal) → List (String × JVal)
  | [], _, _ => []
  | (k', v') :: fs, k, f =>
    if k' = k then (k', f v') :: fs else (k', v') :: objModify fs k f

/-- Modify a list element in place. -/
def listModify : List JVal → Nat → (JVal → JVal) → List JVal
  | [], _, _ => []
  | x :: xs, 0, f => f x :: xs
  | x :: xs, n + 1, f => x :: listModify xs n f

/-- In-place mutation through a property, a no-op where JS mutation would be
one (primitives) or invisible to JSON.stringify (extra array properties). -/
def jModifyField : JVal → String → (JVal → JVal) → JVal
  | .obj fs, k, f => .obj (objModify fs k f)
  | w, _, _ => w

/-- In-place mutation through an index. -/
def jModifyIdx : JVal → Nat → (JVal → JVal) → JVal
  | .arr xs, i, f => .arr (listModify xs i f)
  | .obj fs, i, f => .obj (objModify fs (toString i) f)
  | w, _, _ => w

/-- Evaluation of data.choices?.[0]?.delta.  The outer read data.choices is
not optional-chained, so it throws (none) when data is null; otherwise the
optional chain yields the delta value or undefined. -/
def deltaOf (data : JVal) : Option (Option JVal) :=
  if isNull data then none
  else some (
    match jget data "choices" with
    | none => none
    | some c =>
      if isNull c then none
      else
        match jsIndex c 0 with
        | none => none
        | some c0 => if isNull c0 then none else jget c0 "delta")

/-- The guarded delta mutation written back through data.choices[0].delta,
exactly where the handler mutates in place. -/
def applyToData (sr rs : Bool) (data delta : JVal) : Bool × JVal :=
  let t := transformDelta sr rs delta
  (t.1,
   jModifyField data "choices" (fun c =>
     jModifyIdx c 0 (fun c0 =>
       jModifyField c0 "delta" (fun _ => t.2))))

/-- The try block of the handler on the payload line.slice(6): JSON.parse,
the delta guard, the transformation, and JSON.stringify of the result; none
models a thrown exception (parse failure, or the property read on null). -/
def tryLine (sr rs : Bool) (payload : List Char) : Option (Bool × String) :=
  match jsonParse payload with
  | none => none
  | some data =>
    match deltaOf data with
    | none => none
    | some od =>
      if truthyO od then
        let r := applyToData sr rs data (od.getD .null)
        some (r.1, stringify r.2)
      else some (rs, stringify data)

/-- Processing of one complete line: non data-prefixed lines are dropped, a
line containing the [DONE] sentinel is forwarded with a single newline, a
successfully transformed payload is re-emitted with the data prefix and a
blank-line terminator, and a throwing payload is forwarded verbatim with a
single newline. -/
def processLine (sr rs : Bool) (line : String) : Bool × List String :=
  if strStartsWith line "data: " then
    if strIncludes "[DONE]".toList line.toList then (rs, [line ++ "\n"])
    else
      match tryLine sr rs (line.toList.drop 6) with
      | some (rs', out) => (rs', ["data: " ++ out ++ "\n\n"])
      | none => (rs, [line ++ "\n"])
  else (rs, [])

/-- The per-delta transformation iterated over a sequence of already decoded
deltas, threading reasoningStarted exactly as consecutive stream events do. -/
def runDeltas (sr : Bool) : Bool → List JVal → Bool × List JVal
  | rs, [] => (rs, [])
  | rs, d :: ds =>
    ((runDeltas sr (transformDelta sr rs d).1 ds).1,
     (transformDelta sr rs d).2 :: (runDeltas sr (transformDelta sr rs d).1 ds).2)

/-- lines.forEach of the handler: left-to-right processing threading the
reasoningStarted flag and concatenating the emitted writes. -/
def processLines (sr : Bool) : Bool → List String → Bool × List String
  | rs, [] => (rs, [])
  | rs, l :: ls =>
    ((processLines sr (processLine sr rs l).1 ls).1,
     (processLine sr rs l).2 ++ (processLines sr (processLine sr rs l).1 ls).2)

/-- The cross-chunk state of one streaming response. -/
structure RState where
  buffer : List Char
  reasoningStarted : Bool

/-- buffer.split of the handler: complete lines before each newline, and the
final fragment (the next buffer). -/
def splitInit : List Char → List (List Char) × List Char
  | [] => ([], [])
  | c :: cs =>
    let r := splitInit cs
    if c = '\n' then ([] :: r.1, r.2)
    else
      match r.1 with
      | [] => ([], c :: r.2)
      | l :: ls => ((c :: l) :: ls, r.2)

/-- One data event of the handler: append the chunk, split, retain the final
fragment, process the complete lines. -/
def processChunk (sr : Bool) (st : RState) (chunk : List Char) : RState × List String :=
  let parts := splitInit (st.buffer ++ chunk)
  let r := processLines sr st.reasoningStarted (parts.1.map (fun l => String.mk l))
  (⟨parts.2, r.1⟩, r.2)

/-- A whole sequence of data events. -/
def processChunks (sr : Bool) : RState → List (List Char) → RState × List String
  | st, [] => (st, [])
  | st, c :: cs =>
    ((processChunks sr (processChunk sr st c).1 cs).1,
     (processChunk sr st c).2 ++ (processChunks sr (processChunk sr st c).1 cs).2)

/-- The state at stream start: empty buffer, reasoningStarted false. -/
def initState : RState := ⟨[], false⟩

/-! ## Buffer.toString with UTF-8 replacement decoding

chunk.toString() decodes each chunk independently; an incomplete or invalid
byte sequence becomes replacement characters per the WHATWG decoding the
platform implements. -/

/-- Byte range test. -/
def inRange (lo b hi : Nat) : Bool := decide (lo ≤ b) && decide (b ≤ hi)

/-- A UTF-8 continuation byte. -/
def utf8Cont (b : Nat) : Bool := inRange 128 b 191

/-- WHATWG UTF-8 decoding with U+FFFD replacement on error, as performed by
Buffer.toString on each chunk in isolation. -/
def utf8DecodeAux : Nat → List Nat → List Char
  | 0, _ => []
  | _, [] => []
  | fuel + 1, b :: rest =>
    if b < 128 then Char.ofNat b :: utf8DecodeAux fuel rest
    else if inRange 194 b 223 then
      match rest with
      | [] => [repl]
      | b2 :: rest2 =>
        if utf8Cont b2 then
          Char.ofNat ((b - 192) * 64 + (b2 - 128)) :: utf8DecodeAux fuel rest2
        else repl :: utf8DecodeAux fuel rest
    else if inRange 224 b 239 then
      match rest with
      | [] => [repl]
      | b2 :: rest2 =>
        if (if b = 224 then inRange 160 b2 191
            else if b = 237 then inRange 128 b2 159
            else utf8Cont b2) then
          match rest2 with
          | [] => [repl]
          | b3 :: rest3 =>
            if utf8Cont b3 then
              Char.ofNat ((b - 224) * 4096 + (b2 - 128) * 64 + (b3 - 128)) ::
                utf8DecodeAux fuel rest3
            else repl :: utf8DecodeAux fuel rest2
        else repl :: utf8DecodeAux fuel rest
    else if inRange 240 b 244 then
      match rest with
      | [] => [repl]
      | b2 :: rest2 =>
        if (if b = 240 then inRange 144 b2 191
            else if b = 244 then inRange 128 b2 143
            else utf8Cont b2) then
          match rest2 with
          | [] => [repl]
          | b3 :: rest3 =>
            if utf8Cont b3 then
              match rest3 with
              | [] => [repl]
              | b4 :: rest4 =>
                if utf8Cont b4 then
                  Char.ofNat ((b - 240) * 262144 + (b2 - 128) * 4096 +
                    (b3 - 128) * 64 + (b4 - 128)) :: utf8DecodeAux fuel rest4
                else repl :: utf8DecodeAux fuel rest3
            else repl :: utf8DecodeAux fuel rest2
        else repl :: utf8DecodeAux fuel rest
    else repl :: utf8DecodeAux fuel rest

/-- Decode one chunk of bytes the way Buffer.toString does. -/
def utf8Decode (bs : List Nat) : List Char := utf8DecodeAux (bs.length + 1) bs

/-- The handler applied to raw byte chunks: each chunk is decoded on its own
by chunk.toString() before being appended to the buffer. -/
def processByteChunks (sr : Bool) (st : RState) (chunks : List (List Nat)) :
    RState × List String :=
  processChunks sr st (chunks.map utf8Decode)

/-- UTF-8 bytes of an ASCII string. -/
def strBytes (s : String) : List Nat := s.toList.map Char.toNat

/-! ## The request mapper (server.js lines 266 to 273) -/

/-- One conversation message. -/
structure Message where
  role : String
  content : String
deriving DecidableEq

/-- The destructured inbound request fields the mapper uses; absent fields
are none. -/
structure ChatRequest where
  model : String
  messages : List Message
  temperature : Option ℚ
  max_tokens : Option ℚ
  stream : Option Bool

/-- The JS expression x or-else d for numbers: the default is used when the
value is absent or falsy (zero). -/
def numOr (o : Option ℚ) (d : ℚ) : ℚ :=
  match o with
  | some q => if q = 0 then d else q
  | none => d

/-- The outgoing backend request object nimRequest. -/
structure NimRequest where
  model : String
  messages : List Message
  temperature : ℚ
  max_tokens : ℚ
  thinking_enabled : Bool
  stream : Bool

/-- Construction of nimRequest: temperature or-else 0.6, max_tokens or-else
9024, extra_body present exactly when the thinking toggle is on, the stream
flag or-else false. -/
def mkNimRequest (enableThinking : Bool) (nimModel : String) (messages : List Message)
    (r : ChatRequest) : NimRequest :=
  { model := nimModel
    messages := messages
    temperature := numOr r.temperature 0.6
    max_tokens := numOr r.max_tokens 9024
    thinking_enabled := enableThinking
    stream := r.stream.getD false }

/-! ## The lorebook matcher (findRelevantLoreEntries, server.js lines 80 to 155) -/

/-- One lorebook entry as loaded from JSON; keys is none when the field is
missing or not an array, matching the guard in the source. -/
structure LoreEntry where
  keys : Option (List String)
  content : String
  comment : Option String
  order : Option ℚ
  case_sensitive : Bool
deriving DecidableEq

/-- One loaded lorebook. -/
structure Lorebook where
  title : String
  author : String
  entries : List LoreEntry
deriving DecidableEq

/-- One element pushed onto relevantEntries. -/
structure MatchedEntry where
  content : String
  comment : String
  order : ℚ
  lorebook : String
deriving DecidableEq

/-- toLowerCase on a character list (ASCII case mapping; every property below
stays in ASCII). -/
def lowerChars (cs : List Char) : List Char := cs.map Char.toLower

/-- toLowerCase on a string. -/
def lowerStr (s : String) : String := String.mk (lowerChars s.toList)

/-- Whitespace trimmed by String.prototype.trim (ASCII portion). -/
def isJsSpace (c : Char) : Bool :=
  c = ' ' || c = '\t' || c = '\n' || c = '\r' || c = Char.ofNat 11 || c = Char.ofNat 12

/-- String.prototype.trim. -/
def trimChars (cs : List Char) : List Char :=
  ((cs.dropWhile isJsSpace).reverse.dropWhile isJsSpace).reverse

/-- Case-insensitive prefix test against an already lower-cased pattern. -/
def ciStarts : List Char → List Char → Bool
  | [], _ => true
  | _ :: _, [] => false
  | p :: ps, c :: cs => p == Char.toLower c && ciStarts ps cs

/-- All matches of the directive pattern marker[^>]+ closed by the angle
bracket, case-insensitive, scanning left to right and resuming after each
match, as String.prototype.match with the global flag does. -/
def scanTags : Nat → List Char → List Char → List (List Char)
  | 0, _, _ => []
  | _, _, [] => []
  | fuel + 1, pat, c :: rest =>
    if ciStarts pat (c :: rest) then
      let after := (c :: rest).drop pat.length
      let cap := after.takeWhile (fun ch => ch != '>')
      if !cap.isEmpty && !(after.drop cap.length).isEmpty then
        ((c :: rest).take (pat.length + cap.length + 1)) ::
          scanTags fuel pat (after.drop (cap.length + 1))
      else scanTags fuel pat rest
    else scanTags fuel pat rest

/-- match.replace over the single alternation pattern removing every
case-insensitive marker occurrence and every closing angle bracket, one
left-to-right pass. -/
def stripTag : Nat → List Char → List Char → List Char
  | 0, _, _ => []
  | _, _, [] => []
  | fuel + 1, pat, c :: rest =>
    if ciStarts pat (c :: rest) then stripTag fuel pat ((c :: rest).drop pat.length)
    else if c = '>' then stripTag fuel pat rest
    else c :: stripTag fuel pat rest

/-- The extracted directive title: marker and bracket removed, trimmed,
lower-cased. -/
def tagOf (pat m : List Char) : String :=
  String.mk (lowerChars (trimChars (stripTag (m.length + 1) pat m)))

/-- All directive titles extracted from the conversation text for one
marker. -/
def extractTags (pat : String) (text : List Char) : List String :=
  (scanTags (text.length + 1) pat.toList text).map (tagOf pat.toList)

/-- Array.prototype.join with a single space separator. -/
def joinSp : List (List Char) → List Char
  | [] => []
  | [x] => x
  | x :: xs => x ++ ' ' :: joinSp xs

/-- The concatenated conversation text messages.map(content).join(space). -/
def convText (messages : List Message) : List Char :=
  joinSp (messages.map (fun m => m.content.toList))

/-- Keyword matching for one entry: some trigger key is a substring of the
conversation text, case-sensitively when the entry requests it, otherwise on
the lower-cased copies. -/
def entryMatches (text lower : List Char) (e : LoreEntry) : Bool :=
  match e.keys with
  | none => false
  | some ks =>
    ks.any (fun k =>
      if e.case_sensitive then strIncludes k.toList text
      else strIncludes (lowerChars k.toList) lower)

/-- The entries one lorebook pushes: keyword match and truthy content. -/
def matchedEntries (text lower : List Char) (lb : Lorebook) : List MatchedEntry :=
  lb.entries.filterMap (fun e =>
    if entryMatches text lower e && decide (e.content ≠ "") then
      some ⟨e.content, e.comment.getD "", numOr e.order 0, lb.title⟩
    else none)

/-- The main forEach over loaded lorebooks: skip a book named (lower-cased
title) in the disabled set, skip a book not in the active set when that set
is non-empty, collect the matched entries of the rest, in order. -/
def collectLoreEntries (act dis : List String) (text lower : List Char) :
    List Lorebook → List MatchedEntry
  | [] => []
  | lb :: rest =>
    (if dis.contains (lowerStr lb.title) then []
     else if !act.isEmpty && !act.contains (lowerStr lb.title) then []
     else matchedEntries text lower lb) ++ collectLoreEntries act dis text lower rest

/-- The comparison relation of relevantEntries.sort, comparator
(a, b) => a.order - b.order. -/
def byOrder (a b : MatchedEntry) : Prop := a.order ≤ b.order

instance : DecidableRel byOrder :=
  fun a b => inferInstanceAs (Decidable (a.order ≤ b.order))

instance : IsTotal MatchedEntry byOrder := ⟨fun a b => le_total a.order b.order⟩

instance : IsTrans MatchedEntry byOrder := ⟨fun _ _ _ h1 h2 => le_trans h1 h2⟩

/-- Array.prototype.sort with the numeric order comparator.  The platform
sort is stable (ECMA-262), and a stable sort by a key is extensionally unique,
so insertion sort that keeps ties in discovery order is that sort. -/
def sortByOrder (l : List MatchedEntry) : List MatchedEntry :=
  List.insertionSort byOrder l

/-- findRelevantLoreEntries: directive extraction, per-book filtering,
collection and the stable ascending sort.  The first argument models the
conjunction ENABLE_LOREBOOK and a non-empty loaded set short-circuiting to
the empty result. -/
def findRelevantLoreEntries (enabled : Bool) (books : List Lorebook)
    (messages : List Message) : List MatchedEntry :=
  if !enabled || books.isEmpty then []
  else
    let text := convText messages
    let lower := lowerChars text
    let act := extractTags "<lorebook:" text
    let dis := extractTags "<disable_lorebook:" text
    sortByOrder (collectLoreEntries act dis text lower books)

/-! ## Helper lemmas -/

theorem objGet_eq_none_of_not_mem (fs : List (String × JVal)) (k : String)
    (h : k ∉ fs.map Prod.fst) : objGet fs k = none := by
  induction fs with
  | nil => rfl
  | cons p fs ih =>
    obtain ⟨k', v'⟩ := p
    simp only [List.map_cons, List.mem_cons] at h
    push_neg at h
    simp [objGet, Ne.symm h.1, ih h.2]

theorem objGet_objSet_self (fs : List (String × JVal)) (k : String) (v : JVal) :
    objGet (objSet fs k v) k = some v := by
  induction fs with
  | nil => simp [objSet, objGet]
  | cons p fs ih =>
    obtain ⟨k', v'⟩ := p
    by_cases h : k' = k <;> simp [objSet, objGet, h, ih]

theorem objGet_objSet_ne (fs : List (String × JVal)) (k key : String) (v : JVal)
    (h : key ≠ k) : objGet (objSet fs k v) key = objGet fs key := by
  induction fs with
  | nil => simp [objSet, objGet, Ne.symm h]
  | cons p fs ih =>
    obtain ⟨k', v'⟩ := p
    by_cases h2 : k' = k
    · subst h2
      simp [objSet, objGet, Ne.symm h]
    · by_cases h3 : k' = key <;> simp [objSet, objGet, h2, h3, h, ih]

theorem objGet_objDel_self (fs : List (String × JVal)) (k : String)
    (h : (fs.map Prod.fst).Nodup) : objGet (objDel fs k) k = none := by
  induction fs with
  | nil => rfl
  | cons p fs ih =>
    obtain ⟨k', v'⟩ := p
    simp only [List.map_cons, List.nodup_cons] at h
    by_cases h2 : k' = k
    · subst h2
      simp [objDel, objGet_eq_none_of_not_mem fs k' h.1]
    · simp [objDel, objGet, h2, ih h.2]

theorem objGet_objDel_ne (fs : List (String × JVal)) (k key : String)
    (h : key ≠ k) : objGet (objDel fs k) key = objGet fs key := by
  induction fs with
  | nil => rfl
  | cons p fs ih =>
    obtain ⟨k', v'⟩ := p
    by_cases h2 : k' = k
    · subst h2
      simp [objDel, objGet, Ne.symm h]
    · by_cases h3 : k' = key <;> simp [objDel, objGet, h2, h3, h, ih]

theorem mem_keys_objSet (fs : List (String × JVal)) (k k' : String) (v : JVal)
    (h : k' ∈ (objSet fs k v).map Prod.fst) : k' ∈ fs.map Prod.fst ∨ k' = k := by
  induction fs with
  | nil =>
    simp only [objSet, List.map_cons, List.map_nil, List.mem_singleton] at h
    exact Or.inr h
  | cons p fs ih =>
    obtain ⟨k2, v2⟩ := p
    by_cases h4 : k2 = k
    · subst h4
      simp only [objSet, if_pos rfl] at h
      exact Or.inl (by simp only [List.map_cons] at h ⊢; exact h)
    · simp only [objSet, h4, if_false, List.map_cons, List.mem_cons] at h
      rcases h with h5 | h5
      · exact Or.inl (by simp [h5])
      · rcases ih h5 with h6 | h6
        · exact Or.inl (by simp [h6])
        · exact Or.inr h6

theorem nodup_objSet (fs : List (String × JVal)) (k : String) (v : JVal)
    (h : (fs.map Prod.fst).Nodup) : ((objSet fs k v).map Prod.fst).Nodup := by
  induction fs with
  | nil => simp [objSet]
  | cons p fs ih =>
    obtain ⟨k', v'⟩ := p
    simp only [List.map_cons, List.nodup_cons] at h
    by_cases h2 : k' = k
    · simpa [objSet, h2, List.nodup_cons] using h
    · have hm : k' ∉ (objSet fs k v).map Prod.fst := by
        intro hmem
        rcases mem_keys_objSet fs k k' v hmem with h5 | h5
        · exact h.1 h5
        · exact h2 h5
      simp only [objSet, h2, if_false, List.map_cons, List.nodup_cons]
      exact ⟨hm, ih h.2⟩

theorem processLines_append (sr : Bool) (rs : Bool) (xs ys : List String) :
    processLines sr rs (xs ++ ys) =
      ((processLines sr (processLines sr rs xs).1 ys).1,
       (processLines sr rs xs).2 ++ (processLines sr (processLines sr rs xs).1 ys).2) := by
  induction xs generalizing rs with
  | nil => simp [processLines]
  | cons l ls ih => simp [processLines, ih, List.append_assoc]

theorem processLine_of_no_data_head (sr rs : Bool) (l : String)
    (h : strStartsWith l "data: " = false) : processLine sr rs l = (rs, []) := by
  simp [processLine, h]

theorem processLines_of_no_data (sr rs : Bool) (ls : List String)
    (h : ∀ l ∈ ls, strStartsWith l "data: " = false) :
    processLines sr rs ls = (rs, []) := by
  induction ls with
  | nil => rfl
  | cons l ls ih =>
    have h1 := processLine_of_no_data_head sr rs l (h l (List.mem_cons_self l ls))
    simp [processLines, h1, ih fun x hx => h x (List.mem_cons_of_mem l hx)]

theorem processLine_sentinel (sr rs : Bool) (line : String)
    (hp : strStartsWith line "data: " = true)
    (hd : strIncludes "[DONE]".toList line.toList = true) :
    processLine sr rs line = (rs, [line ++ "\n"]) := by
  unfold processLine
  rw [hp, hd]
  simp

theorem processLine_failed (sr rs : Bool) (line : String)
    (hp : strStartsWith line "data: " = true)
    (hd : strIncludes "[DONE]".toList line.toList = false)
    (he : tryLine sr rs (line.toList.drop 6) = none) :
    processLine sr rs line = (rs, [line ++ "\n"]) := by
  unfold processLine
  rw [hp, hd, he]
  simp

theorem deltaMergeOn_snd (rs : Bool) (r c : Option JVal) :
    (deltaMergeOn rs r c).2 = ((rs || truthyO r) && !truthyO c) := by
  cases rs <;> cases hr : truthyO r <;> cases hc : truthyO c <;>
    simp [deltaMergeOn, hr, hc]

theorem transformDelta_fst_on (rs : Bool) (d : JVal) :
    (transformDelta true rs d).1 =
      ((rs || truthyO (jget d "reasoning_content")) &&
        !truthyO (jget d "content")) := by
  have h := deltaMergeOn_snd rs (jget d "reasoning_content") (jget d "content")
  by_cases hc :
      jsTruthy (deltaMergeOn rs (jget d "reasoning_content") (jget d "content")).1 <;>
    simp [transformDelta, hc, h]

theorem filter_orderedInsert_key (x : MatchedEntry) (l : List MatchedEntry) (k : ℚ) :
    (List.orderedInsert byOrder x l).filter (fun e => decide (e.order = k)) =
      if x.order = k then x :: l.filter (fun e => decide (e.order = k))
      else l.filter (fun e => decide (e.order = k)) := by
  induction l with
  | nil => by_cases h : x.order = k <;> simp [List.orderedInsert, h]
  | cons b t ih =>
    by_cases hle : byOrder x b
    · rw [List.orderedInsert_of_le _ _ hle]
      by_cases h : x.order = k <;> simp [h]
    · have hbt : b.order < x.order := lt_of_not_le hle
      by_cases h : x.order = k
      · have hb : ¬ b.order = k := by
          intro hbk
          rw [hbk, ← h] at hbt
          exact lt_irrefl _ hbt
        simp [List.orderedInsert, hle, List.filter, hb, ih, h]
      · by_cases hb : b.order = k <;>
          simp [List.orderedInsert, hle, List.filter, hb, ih, h]

theorem filter_insertionSort_key (l : List MatchedEntry) (k : ℚ) :
    (sortByOrder l).filter (fun e => decide (e.order = k)) =
      l.filter (fun e => decide (e.order = k)) := by
  induction l with
  | nil => rfl
  | cons x t ih =>
    unfold sortByOrder at ih ⊢
    rw [List.insertionSort, filter_orderedInsert_key]
    by_cases h : x.order = k <;> simp [List.filter_cons, h, ih]

theorem mem_sortByOrder (l : List MatchedEntry) (r : MatchedEntry) :
    r ∈ sortByOrder l ↔ r ∈ l := List.mem_insertionSort byOrder

theorem sorted_sortByOrder (l : List MatchedEntry) :
    (sortByOrder l).Sorted byOrder := List.sorted_insertionSort byOrder l

theorem mem_collectLoreEntries (act dis : List String) (text lower : List Char)
    (books : List Lorebook) (lb : Lorebook) (hmem : lb ∈ books)
    (hdis : dis.contains (lowerStr lb.title) = false) (hact : act = [])
    (e : LoreEntry) (he : e ∈ lb.entries)
    (hm : entryMatches text lower e = true) (hc : e.content ≠ "") :
    ∃ r ∈ collectLoreEntries act dis text lower books, r.lorebook = lb.title := by
  subst hact
  induction books with
  | nil => cases hmem
  | cons b rest ih =>
    rcases List.mem_cons.mp hmem with hb | hb
    · refine ⟨⟨e.content, e.comment.getD "", numOr e.order 0, lb.title⟩, ?_, rfl⟩
      have hr : (⟨e.content, e.comment.getD "", numOr e.order 0, lb.title⟩ : MatchedEntry) ∈
          matchedEntries text lower lb := by
        apply List.mem_filterMap.mpr
        exact ⟨e, he, by simp [hm, hc]⟩
      rw [← hb]
      simp only [collectLoreEntries, hdis, Bool.false_eq_true, if_false,
        List.isEmpty_nil, Bool.not_true, Bool.false_and, if_false]
      exact List.mem_append_left _ hr
    · rcases ih hb with ⟨r, hr, hrt⟩
      exact ⟨r, List.mem_append_right _ hr, hrt⟩

theorem lorebook_of_mem_collect (act dis : List String) (text lower : List Char)
    (books : List Lorebook) (r : MatchedEntry)
    (hr : r ∈ collectLoreEntries act dis text lower books) :
    ∃ lb ∈ books, r.lorebook = lb.title ∧
      dis.contains (lowerStr lb.title) = false := by
  induction books with
  | nil => cases hr
  | cons b rest ih =>
    simp only [collectLoreEntries] at hr
    rcases List.mem_append.mp hr with hr1 | hr1
    · by_cases hd : dis.contains (lowerStr b.title)
      · rw [if_pos hd] at hr1
        cases hr1
      · refine ⟨b, List.mem_cons_self b rest, ?_, by simpa using hd⟩
        rw [if_neg hd] at hr1
        by_cases ha : !act.isEmpty && !act.contains (lowerStr b.title)
        · rw [if_pos ha] at hr1
          cases hr1
        · rw [if_neg ha] at hr1
          rcases List.mem_filterMap.mp hr1 with ⟨e, _, hre⟩
          by_cases hcond : entryMatches text lower e && decide (e.content ≠ "")
          · rw [if_pos hcond] at hre
            cases hre
            rfl
          · rw [if_neg hcond] at hre
            cases hre
    · rcases ih hr1 with ⟨lb, hlb, hrt, hlbd⟩
      exact ⟨lb, List.mem_cons_of_mem b hlb, hrt, hlbd⟩

/-! ## Claims -/

/-- Claim C1 (refuted by the code, supporting the spec's intent): the same
logical byte stream, split at a byte offset inside the two-byte UTF-8
character in "data: x é\n", produces different emitted events than the
unsplit delivery, because chunk.toString() decodes each chunk in isolation
and turns the split character into two replacement characters.  The spec
requires identical output for every byte-offset split. -/
theorem claim1_split_corruption :
    strBytes "data: x " ++ [195] ++ ([169, 10] : List Nat) =
      strBytes "data: x " ++ [195, 169, 10] ∧
    (processByteChunks false initState [strBytes "data: x " ++ [195, 169, 10]]).2 =
      ["data: x é\n"] ∧
    (processByteChunks false initState
      [strBytes "data: x " ++ [195], [169, 10]]).2 = ["data: x ��\n"] ∧
    (processByteChunks false initState [strBytes "data: x " ++ [195], [169, 10]]).2 ≠
      (processByteChunks false initState [strBytes "data: x " ++ [195, 169, 10]]).2 :=
  ⟨by decide, by decide, by decide, by decide⟩

/-- Claim C10: every complete line with the event prefix that contains the
character sequence [DONE] anywhere is forwarded with a single newline, never
JSON-decoded or transformed, and leaves the reasoningOpen state unchanged, in
either display mode. -/
theorem claim10_done_by_substring (sr rs : Bool) (line : String)
    (hp : strStartsWith line "data: " = true)
    (hd : strIncludes "[DONE]".toList line.toList = true) :
    processLine sr rs line = (rs, [line ++ "\n"]) :=
  processLine_sentinel sr rs line hp hd

/-- The C10 witness line: a valid JSON delta payload whose content text
merely contains the sentinel sequence. -/
def c10Line : String :=
  "data: \x7b\"choices\":[\x7b\"delta\":\x7b\"content\":\"x[DONE]y\",\"reasoning_content\":\"r\"\x7d\x7d]\x7d"

/-- Claim C10 witness: the valid delta payload containing [DONE] in its text
is forwarded untouched (single newline, state unchanged) even though its
payload decodes and would otherwise be transformed. -/
theorem claim10_witness :
    processLine false true c10Line = (true, [c10Line ++ "\n"]) ∧
    (jsonParse (c10Line.toList.drop 6)).isSome = true ∧
    (tryLine false true (c10Line.toList.drop 6)).isSome = true :=
  ⟨claim10_done_by_substring false true c10Line (by decide) (by decide),
   by decide, by decide⟩

/-- Claim C4 counterexample: the [DONE] line is emitted with a single line
separator, data: [DONE] newline, not with the blank-line framing
data: [DONE] newline newline that the claim asserts for the final event. -/
theorem claim4_counterexample :
    processLine false false "data: [DONE]" = (false, ["data: [DONE]\n"]) ∧
    ["data: [DONE]\n"] ≠ ["data: [DONE]" ++ "\n\n"] :=
  ⟨by decide, by decide⟩

/-- Claim C4 amended: the terminator sentinel line is forwarded verbatim,
never JSON-parsed or modified, leaves the state unchanged, and is the last
line emitted whenever no later line carries the event prefix; but its framing
is the line followed by one newline, not the blank-line framing used for
re-encoded events. -/
theorem claim4_amended (sr rs : Bool) (pre post : List String)
    (h : ∀ l ∈ post, strStartsWith l "data: " = false) :
    processLines sr rs (pre ++ "data: [DONE]" :: post) =
      ((processLines sr rs pre).1,
       (processLines sr rs pre).2 ++ ["data: [DONE]" ++ "\n"]) := by
  rw [processLines_append]
  have hdone : processLine sr (processLines sr rs pre).1 "data: [DONE]" =
      ((processLines sr rs pre).1, ["data: [DONE]" ++ "\n"]) :=
    processLine_sentinel _ _ _ (by decide) (by decide)
  simp [processLines, hdone, processLines_of_no_data sr _ post h]

/-- Claim C4 witness: a stream whose lines are the sentinel line and a
trailing blank line emits exactly the forwarded sentinel with one newline. -/
theorem claim4_witness :
    processLines false false ["data: [DONE]", ""] =
      (false, ["data: [DONE]" ++ "\n"]) :=
  claim4_amended false false [] [""] (by decide)

/-- Claim C6 counterexample: a malformed payload line is forwarded
byte-for-byte but with a single newline, not with the blank-line event
framing of the original stream that the claim asserts. -/
theorem claim6_counterexample :
    processLine false false "data: \x7bbad" = (false, ["data: \x7bbad" ++ "\n"]) ∧
    tryLine false false ("data: \x7bbad".toList.drop 6) = none ∧
    ["data: \x7bbad" ++ "\n"] ≠ ["data: \x7bbad" ++ "\n\n"] :=
  ⟨by decide, by decide, by decide⟩

/-- Claim C6 amended: in both display modes, every complete prefixed line
whose payload fails to decode (or throws during the guarded access) is
forwarded byte-for-byte with a single trailing newline, is never dropped,
and leaves the state unchanged so the stream continues. -/
theorem claim6_amended (sr rs : Bool) (line : String)
    (hp : strStartsWith line "data: " = true)
    (hd : strIncludes "[DONE]".toList line.toList = false)
    (he : tryLine sr rs (line.toList.drop 6) = none) :
    processLine sr rs line = (rs, [line ++ "\n"]) :=
  processLine_failed sr rs line hp hd he

/-- Claim C6 witness: the malformed line data: notjson passes through
verbatim in both display modes. -/
theorem claim6_witness :
    processLine true true "data: notjson" = (true, ["data: notjson" ++ "\n"]) ∧
    processLine false false "data: notjson" = (false, ["data: notjson" ++ "\n"]) :=
  ⟨claim6_amended true true "data: notjson" (by decide) (by decide) (by decide),
   claim6_amended false false "data: notjson" (by decide) (by decide) (by decide)⟩

/-- The four-delta input sequence of claim C2. -/
def c2Deltas : List JVal :=
  [JVal.obj [("reasoning_content", JVal.str "a")],
   JVal.obj [("content", JVal.str "b")],
   JVal.obj [("reasoning_content", JVal.str "c")],
   JVal.obj [("content", JVal.str "d")]]

/-- Claim C2: with reasoning display on, the delta sequence reasoning a,
content b, reasoning c, content d yields content fields opening marker plus a,
closing marker plus b, opening marker plus c, closing marker plus d, the flag
ends false, and in general the flag transition depends only on the
truthiness of the reasoning and content texts of each delta. -/
theorem claim2_display_on_sequence :
    (runDeltas true false c2Deltas).2.map (fun d => jget d "content") =
      [some (JVal.str ("<think>\n" ++ "a")), some (JVal.str ("</think>\n\n" ++ "b")),
       some (JVal.str ("<think>\n" ++ "c")), some (JVal.str ("</think>\n\n" ++ "d"))] ∧
    (runDeltas true false c2Deltas).1 = false ∧
    ∀ (rs : Bool) (d : JVal),
      (transformDelta true rs d).1 =
        ((rs || truthyO (jget d "reasoning_content")) &&
          !truthyO (jget d "content")) :=
  ⟨rfl, rfl, fun rs d => transformDelta_fst_on rs d⟩

/-- Claim C7 counterexample: a client-supplied temperature of 0 and
max_tokens of 0 are replaced by the defaults 0.6 and 9024, because the
or-else defaulting treats the falsy zero like an absent field. -/
theorem claim7_counterexample :
    (mkNimRequest true "meta/llama-3.1-8b-instruct" []
        ⟨"gpt-4", [], some 0, some 0, none⟩).temperature = 0.6 ∧
    (0.6 : ℚ) ≠ 0 ∧
    (mkNimRequest true "meta/llama-3.1-8b-instruct" []
        ⟨"gpt-4", [], some 0, some 0, none⟩).max_tokens = 9024 ∧
    (9024 : ℚ) ≠ 0 :=
  ⟨by norm_num [mkNimRequest, numOr], by norm_num,
   by norm_num [mkNimRequest, numOr], by norm_num⟩

/-- Claim C7 amended: the backend request temperature equals the
client-supplied temperature whenever one is present and nonzero, and the
default 0.6 when the field is absent or zero; likewise max_tokens with
default 9024. -/
theorem claim7_amended (enableThinking : Bool) (nimModel : String)
    (messages : List Message) (r : ChatRequest) :
    ((r.temperature = none ∨ r.temperature = some 0) →
      (mkNimRequest enableThinking nimModel messages r).temperature = 0.6) ∧
    (∀ q : ℚ, r.temperature = some q → q ≠ 0 →
      (mkNimRequest enableThinking nimModel messages r).temperature = q) ∧
    ((r.max_tokens = none ∨ r.max_tokens = some 0) →
      (mkNimRequest enableThinking nimModel messages r).max_tokens = 9024) ∧
    (∀ q : ℚ, r.max_tokens = some q → q ≠ 0 →
      (mkNimRequest enableThinking nimModel messages r).max_tokens = q) := by
  refine ⟨?_, ?_, ?_, ?_⟩
  · rintro (h | h) <;> simp [mkNimRequest, numOr, h]
  · intro q hq hq0
    simp [mkNimRequest, numOr, hq, hq0]
  · rintro (h | h) <;> simp [mkNimRequest, numOr, h]
  · intro q hq hq0
    simp [mkNimRequest, numOr, hq, hq0]

/-- Claim C7 witness: a nonzero client temperature of 2 is passed through and
an absent max_tokens gets the default. -/
theorem claim7_witness :
    (mkNimRequest true "m" [] ⟨"gpt-4", [], some 2, none, none⟩).temperature = 2 ∧
    (mkNimRequest true "m" [] ⟨"gpt-4", [], some 2, none, none⟩).max_tokens = 9024 :=
  ⟨(claim7_amended true "m" [] ⟨"gpt-4", [], some 2, none, none⟩).2.1 2 rfl (by norm_num),
   (claim7_amended true "m" [] ⟨"gpt-4", [], some 2, none, none⟩).2.2.1 (Or.inl rfl)⟩

/-- Claim C3: with reasoning display off, for every decoded delta object
(whose content field, if present, carries text), the transformation leaves
the flag unchanged, removes the reasoning field from the emitted payload, and
emits a content field equal to the incoming content text when present and the
empty string when absent — so reasoning text never leaks and content is
always present. -/
theorem claim3_display_off (rs : Bool) (fs : List (String × JVal))
    (hnd : (fs.map Prod.fst).Nodup)
    (hc : objGet fs "content" = none ∨ ∃ s, objGet fs "content" = some (JVal.str s)) :
    (transformDelta false rs (JVal.obj fs)).1 = rs ∧
    jget (transformDelta false rs (JVal.obj fs)).2 "reasoning_content" = none ∧
    jget (transformDelta false rs (JVal.obj fs)).2 "content" =
      some (JVal.str (match objGet fs "content" with
        | some (JVal.str s) => s
        | _ => "")) := by
  have hX : transformDelta false rs (JVal.obj fs) =
      (rs, JVal.obj (objDel (objSet fs "content"
        (if truthyO (objGet fs "content") then (objGet fs "content").getD .null
         else .str "")) "reasoning_content")) := rfl
  rw [hX]
  refine ⟨rfl, ?_, ?_⟩
  · exact objGet_objDel_self _ _ (nodup_objSet fs _ _ hnd)
  · show objGet (objDel (objSet fs "content" _) "reasoning_content") "content" = _
    rw [objGet_objDel_ne _ _ _ (by decide), objGet_objSet_self]
    rcases hc with h | ⟨s, h⟩
    · rw [h]
      rfl
    · rw [h]
      by_cases hs : s = ""
    -- with empty content text the falsy branch still emits that same text
      · subst hs
        rfl
      · simp [truthyO, jsTruthy, hs]

/-- Claim C3 witness: a delta carrying reasoning text and content text emits
content unchanged, drops the reasoning field, and keeps the flag. -/
theorem claim3_witness :
    (transformDelta false true (JVal.obj
      [("reasoning_content", JVal.str "secret"), ("content", JVal.str "hi")])).1 = true ∧
    jget (transformDelta false true (JVal.obj
      [("reasoning_content", JVal.str "secret"), ("content", JVal.str "hi")])).2
      "reasoning_content" = none ∧
    jget (transformDelta false true (JVal.obj
      [("reasoning_content", JVal.str "secret"), ("content", JVal.str "hi")])).2
      "content" = some (JVal.str "hi") := by
  have h := claim3_display_off true
    [("reasoning_content", JVal.str "secret"), ("content", JVal.str "hi")]
    (by decide) (Or.inr ⟨"hi", rfl⟩)
  refine ⟨h.1, h.2.1, ?_⟩
  rw [h.2.2]
  rfl

/-- Claim C5 counterexample: with reasoning display on, a decoded delta whose
reasoning field is the empty string (falsy) produces an empty merged text, so
the handler skips the delete and the emitted payload retains the reasoning
field — both at the delta level and on the emitted wire event. -/
theorem claim5_counterexample :
    jget (transformDelta true false
        (JVal.obj [("reasoning_content", JVal.str "")])).2 "reasoning_content" =
      some (JVal.str "") ∧
    processLine true false
        "data: \x7b\"choices\":[\x7b\"delta\":\x7b\"reasoning_content\":\"\"\x7d\x7d]\x7d" =
      (false,
       ["data: \x7b\"choices\":[\x7b\"delta\":\x7b\"reasoning_content\":\"\"\x7d\x7d]\x7d\n\n"]) :=
  ⟨rfl, by decide⟩

/-- Claim C5 amended: the reasoning field is always removed in display-off
mode; in display-on mode it is removed, and the merged text replaces the
content field, exactly when the merged text is truthy — when both channels
are empty or absent the delta is re-emitted unchanged, retaining any
reasoning field. -/
theorem claim5_amended (rs : Bool) (fs : List (String × JVal))
    (hnd : (fs.map Prod.fst).Nodup) :
    (jget (transformDelta false rs (JVal.obj fs)).2 "reasoning_content" = none) ∧
    (jsTruthy (deltaMergeOn rs (objGet fs "reasoning_content")
        (objGet fs "content")).1 = true →
      jget (transformDelta true rs (JVal.obj fs)).2 "reasoning_content" = none ∧
      jget (transformDelta true rs (JVal.obj fs)).2 "content" =
        some (deltaMergeOn rs (objGet fs "reasoning_content")
          (objGet fs "content")).1) ∧
    (jsTruthy (deltaMergeOn rs (objGet fs "reasoning_content")
        (objGet fs "content")).1 = false →
      (transformDelta true rs (JVal.obj fs)).2 = JVal.obj fs) := by
  refine ⟨?_, ?_, ?_⟩
  · exact objGet_objDel_self _ _ (nodup_objSet fs _ _ hnd)
  · intro h
    have hred : transformDelta true rs (JVal.obj fs) =
        ((deltaMergeOn rs (objGet fs "reasoning_content") (objGet fs "content")).2,
         JVal.obj (objDel (objSet fs "content"
           (deltaMergeOn rs (objGet fs "reasoning_content") (objGet fs "content")).1)
           "reasoning_content")) := by
      simp only [transformDelta, jget, h, if_true]
      rfl
    rw [hred]
    constructor
    · exact objGet_objDel_self _ _ (nodup_objSet fs _ _ hnd)
    · show objGet (objDel (objSet fs "content" _) "reasoning_content") "content" = _
      rw [objGet_objDel_ne _ _ _ (by decide), objGet_objSet_self]
  · intro h
    simp only [transformDelta, jget, h]
    rfl

/-- Claim C5 witness: when merging occurs (truthy reasoning and content), the
reasoning field is removed and the merged text replaces the content field. -/
theorem claim5_witness :
    jget (transformDelta true false (JVal.obj
      [("reasoning_content", JVal.str "r"), ("content", JVal.str "c")])).2
      "reasoning_content" = none ∧
    jget (transformDelta true false (JVal.obj
      [("reasoning_content", JVal.str "r"), ("content", JVal.str "c")])).2
      "content" = some (JVal.str "<think>\nr</think>\n\nc") := by
  have h := (claim5_amended false
    [("reasoning_content", JVal.str "r"), ("content", JVal.str "c")]
    (by decide)).2.1 (by rfl)
  refine ⟨h.1, ?_⟩
  rw [h.2]
  rfl

/-- The two lorebooks of the C8 counterexample: both have an entry whose
trigger key matches the conversation, but the first entry's content is empty
and the second book is named by a deactivation directive. -/
def c8Books : List Lorebook :=
  [⟨"alpha", "a", [⟨some ["x"], "", none, some 1, false⟩]⟩,
   ⟨"beta", "b", [⟨some ["x"], "lore", none, some 1, false⟩]⟩]

/-- The conversation of the C8 counterexample: it matches the trigger key of
both books, carries zero activation directives, and one deactivation
directive. -/
def c8Msgs : List Message := [⟨"user", "x <DISABLE_LOREBOOK:beta>"⟩]

/-- Claim C8 counterexample: a conversation with zero activation directives
and two loaded sources, each with at least one entry whose trigger key
matches, for which the matcher nevertheless returns no entry at all — the
first source's matching entry has empty (falsy) content and is skipped, and
the second source is excluded by a deactivation directive. -/
theorem claim8_counterexample :
    extractTags "<lorebook:" (convText c8Msgs) = [] ∧
    entryMatches (convText c8Msgs) (lowerChars (convText c8Msgs))
      ⟨some ["x"], "", none, some 1, false⟩ = true ∧
    entryMatches (convText c8Msgs) (lowerChars (convText c8Msgs))
      ⟨some ["x"], "lore", none, some 1, false⟩ = true ∧
    findRelevantLoreEntries true c8Books c8Msgs = [] :=
  ⟨by decide, by decide, by decide, by decide⟩

/-- Claim C8 amended: for every conversation with zero activation directives
and loaded sources none of which is named (lower-cased title) by a
deactivation directive and each of which has at least one matching entry with
nonempty content, the matcher returns entries from every source, sorted
ascending by order, and the sort is stable: for each order value the entries
with that order are exactly the collected ones in discovery order (and the
matcher is a pure function, so repeated runs on identical input agree). -/
theorem claim8_amended (books : List Lorebook) (messages : List Message)
    (hact : extractTags "<lorebook:" (convText messages) = [])
    (hall : ∀ lb ∈ books,
      (extractTags "<disable_lorebook:" (convText messages)).contains
        (lowerStr lb.title) = false ∧
      ∃ e ∈ lb.entries,
        entryMatches (convText messages) (lowerChars (convText messages)) e = true ∧
        e.content ≠ "") :
    (∀ lb ∈ books,
      ∃ r ∈ findRelevantLoreEntries true books messages, r.lorebook = lb.title) ∧
    (findRelevantLoreEntries true books messages).Sorted byOrder ∧
    ∀ k : ℚ,
      (findRelevantLoreEntries true books messages).filter
          (fun e => decide (e.order = k)) =
        (collectLoreEntries (extractTags "<lorebook:" (convText messages))
          (extractTags "<disable_lorebook:" (convText messages))
          (convText messages) (lowerChars (convText messages)) books).filter
          (fun e => decide (e.order = k)) := by
  by_cases hbe : books.isEmpty
  · have hb : books = [] := List.isEmpty_iff.mp hbe
    subst hb
    refine ⟨by simp, ?_, ?_⟩
    · simp [findRelevantLoreEntries]
    · intro k
      simp [findRelevantLoreEntries, collectLoreEntries]
  · have hred : findRelevantLoreEntries true books messages =
        sortByOrder (collectLoreEntries
          (extractTags "<lorebook:" (convText messages))
          (extractTags "<disable_lorebook:" (convText messages))
          (convText messages) (lowerChars (convText messages)) books) := by
      simp [findRelevantLoreEntries, hbe]
    refine ⟨?_, ?_, ?_⟩
    · intro lb hlb
      rcases hall lb hlb with ⟨hd, e, he, hm, hc⟩
      rcases mem_collectLoreEntries _ _ _ _ books lb hlb hd hact e he hm hc with
        ⟨r, hr, hrt⟩
      exact ⟨r, by rw [hred]; exact (mem_sortByOrder _ _).mpr hr, hrt⟩
    · rw [hred]
      exact sorted_sortByOrder _
    · intro k
      rw [hred]
      exact filter_insertionSort_key _ k

/-- The two lorebooks of the C8 witness. -/
def c8wBooks : List Lorebook :=
  [⟨"one", "a", [⟨some ["alpha"], "A", none, some 2, false⟩]⟩,
   ⟨"two", "b", [⟨some ["beta"], "B", none, some 1, false⟩]⟩]

/-- The conversation of the C8 witness: matches both books, no directives. -/
def c8wMsgs : List Message := [⟨"user", "alpha beta"⟩]

/-- Claim C8 witness: with two matching sources and no directives the matcher
returns one entry from each, sorted ascending by order. -/
theorem claim8_witness :
    (∃ r ∈ findRelevantLoreEntries true c8wBooks c8wMsgs, r.lorebook = "one") ∧
    (∃ r ∈ findRelevantLoreEntries true c8wBooks c8wMsgs, r.lorebook = "two") ∧
    (findRelevantLoreEntries true c8wBooks c8wMsgs).Sorted byOrder ∧
    findRelevantLoreEntries true c8wBooks c8wMsgs =
      [⟨"B", "", 1, "two"⟩, ⟨"A", "", 2, "one"⟩] := by
  have h := claim8_amended c8wBooks c8wMsgs (by decide) (by decide)
  exact ⟨h.1 ⟨"one", "a", [⟨some ["alpha"], "A", none, some 2, false⟩]⟩ (by decide),
         h.1 ⟨"two", "b", [⟨some ["beta"], "B", none, some 1, false⟩]⟩ (by decide),
         h.2.1, by decide⟩

/-- The lorebook of the C9 counterexample, with whitespace in its title. -/
def c9Books : List Lorebook :=
  [⟨"gamma ", "a", [⟨some ["x"], "lore", none, some 1, false⟩]⟩]

/-- The conversation of the C9 counterexample, naming the trimmed title in a
deactivation directive. -/
def c9Msgs : List Message := [⟨"user", "x <DISABLE_LOREBOOK:gamma>"⟩]

/-- Claim C9 counterexample: a source whose title compared lower-cased and
trimmed is named by a deactivation directive still contributes its entries,
because the code lower-cases but does not trim the source title before the
comparison. -/
theorem claim9_counterexample :
    (extractTags "<disable_lorebook:" (convText c9Msgs)).contains
      (String.mk (lowerChars (trimChars "gamma ".toList))) = true ∧
    (findRelevantLoreEntries true c9Books c9Msgs).map (fun r => r.lorebook) =
      ["gamma "] :=
  ⟨by decide, by decide⟩

/-- Claim C9 amended: a source whose lower-cased (untrimmed) title equals one
of the extracted deactivation directive names (which are trimmed and
lower-cased) contributes no entries, regardless of any activation
directives — in particular also when zero activation directives make every
source active by default. -/
theorem claim9_amended (books : List Lorebook) (messages : List Message)
    (lb : Lorebook) (_hmem : lb ∈ books)
    (hdis : (extractTags "<disable_lorebook:" (convText messages)).contains
      (lowerStr lb.title) = true) :
    ∀ r ∈ findRelevantLoreEntries true books messages, r.lorebook ≠ lb.title := by
  intro r hr
  by_cases hbe : books.isEmpty
  · simp [findRelevantLoreEntries, hbe] at hr
  · have hred : findRelevantLoreEntries true books messages =
        sortByOrder (collectLoreEntries
          (extractTags "<lorebook:" (convText messages))
          (extractTags "<disable_lorebook:" (convText messages))
          (convText messages) (lowerChars (convText messages)) books) := by
      simp [findRelevantLoreEntries, hbe]
    rw [hred] at hr
    rcases lorebook_of_mem_collect _ _ _ _ books r ((mem_sortByOrder _ _).mp hr) with
      ⟨b2, _, hrt, hb2d⟩
    intro hEq
    have hEq2 : lowerStr b2.title = lowerStr lb.title := by rw [← hrt, hEq]
    rw [hEq2, hdis] at hb2d
    cases hb2d

/-- The lorebooks of the C9 witness: one kept, one deactivated. -/
def c9wBooks : List Lorebook :=
  [⟨"keep", "a", [⟨some ["x"], "K", none, some 1, false⟩]⟩,
   ⟨"drop", "b", [⟨some ["x"], "D", none, some 2, false⟩]⟩]

/-- The conversation of the C9 witness: zero activation directives and one
deactivation directive. -/
def c9wMsgs : List Message := [⟨"user", "x <DISABLE_LOREBOOK:drop>"⟩]

/-- Claim C9 witness: the deactivated source contributes nothing even with
zero activation directives; the other source's entry is returned. -/
theorem claim9_witness :
    (∀ r ∈ findRelevantLoreEntries true c9wBooks c9wMsgs, r.lorebook ≠ "drop") ∧
    findRelevantLoreEntries true c9wBooks c9wMsgs = [⟨"K", "", 1, "keep"⟩] :=
  ⟨claim9_amended c9wBooks c9wMsgs
      ⟨"drop", "b", [⟨some ["x"], "D", none, some 2, false⟩]⟩
      (by decide) (by decide),
   by decide⟩

end NimProxy
